import Mathlib

/-!
Verification of `lldb/utils/TableGen/LLDBPropertyDefEmitter.cpp`, the LLDB
tablegen backend that emits property definition tables (table mode) and
property enum cases (enum mode).

TableGen records are modelled as structures whose fields mirror exactly the
field accesses the backend performs; the sequential `raw_ostream` writes are
modelled as string concatenation in write order, and the two `assert`s in
`emitProperty` as an abort that stops emission at the point where the assert
fires (the text written before that point stays written).
-/

set_option maxRecDepth 40000

namespace LLDBPropertyDefEmitter

/-- Model of a TableGen `Record` as accessed by this backend.  Presence
checks (`Record::getValue("F")`) become `Bool` or `Option` fields; value
reads (`getValueAsString`, `getValueAsInt`) read the payload fields. -/
structure PropertyRecord where
  /-- `Record::getName()`: the name of the tablegen `def` itself. -/
  recordName : String
  /-- `getValueAsString("Name")`: the property-name field. -/
  Name : String
  /-- `getValueAsString("Definition")`: the grouping key. -/
  Definition : String
  /-- `getValueAsString("Type")`. -/
  type : String
  /-- Whether the record has a value named `Global`; the code tests only
  presence (`Property->getValue("Global")`), never a stored boolean. -/
  Global : Bool
  /-- Whether the record has a value named `HasDefaultUnsignedValue`. -/
  hasDefaultUnsignedValue : Bool
  /-- `getValueAsInt("DefaultUnsignedValue")`. -/
  DefaultUnsignedValue : Int
  /-- Whether the record has a value named `HasDefaultEnumValue`. -/
  hasDefaultEnumValue : Bool
  /-- `getValueAsString("DefaultEnumValue")`. -/
  DefaultEnumValue : String
  /-- Whether the record has a value named `HasDefaultStringValue`. -/
  hasDefaultStringValue : Bool
  /-- The value named `DefaultStringValue`, when the record has one. -/
  DefaultStringValue : Option String
  /-- The value named `EnumValues`, when the record has one. -/
  EnumValues : Option String
  /-- The value named `Description`, when the record has one. -/
  Description : Option String
  deriving DecidableEq

/-- The two assertion failures in `emitProperty`. -/
inductive ValidationError where
  | MissingDefault
  | ConflictingDefault
  deriving DecidableEq

/-- The fixed message text of each failing assert in `emitProperty`. -/
def assertMessage : ValidationError → String
  | ValidationError.MissingDefault => "Property must have a default value"
  | ValidationError.ConflictingDefault =>
      "Property cannot have both a unsigned and enum default value."

/-- The two asserts of `emitProperty`, viewed as a record check: missing
default is checked first, then the unsigned/enum conflict. -/
def validate (Property : PropertyRecord) : Option ValidationError :=
  if !(Property.hasDefaultUnsignedValue || Property.hasDefaultEnumValue
        || Property.hasDefaultStringValue) then
    some ValidationError.MissingDefault
  else if Property.hasDefaultUnsignedValue && Property.hasDefaultEnumValue then
    some ValidationError.ConflictingDefault
  else none

/-- `result[key].push_back(Property)` on a `std::map<std::string, ...>`:
ordered insertion into an association list kept sorted by key, appending to
the existing bucket when the key is already present. -/
def insertRecord (k : String) (P : PropertyRecord) :
    List (String × List PropertyRecord) → List (String × List PropertyRecord)
  | [] => [(k, [P])]
  | g :: rest =>
    if k = g.1 then (g.1, g.2 ++ [P]) :: rest
    else if k < g.1 then (k, [P]) :: g :: rest
    else g :: insertRecord k P rest

/-- `getPropertyList`: groups all properties by their `Definition` field;
the `std::map` keeps the groups sorted by group name. -/
def getPropertyList (Properties : List PropertyRecord) :
    List (String × List PropertyRecord) :=
  Properties.foldl
    (fun result Property => insertRecord Property.Definition Property result) []

/-- The bucket of a given key in a grouped list (empty when absent). -/
def findGroup (k : String) (groups : List (String × List PropertyRecord)) :
    List PropertyRecord :=
  match groups.find? (fun g => g.1 == k) with
  | some g => g.2
  | none => []

/-- The record-level `emitPropertyEnum` overload: one enum-case line, built
from `Record::getName()`. -/
def emitPropertyEnum (Property : PropertyRecord) : String :=
  "eProperty" ++ Property.recordName ++ ",\n"

/-- `emitProperty`: one table row.  Returns the text written to the stream
and the assertion failure that aborted emission, if any; the name, type and
global slots are written before the asserts run. -/
def emitProperty (Property : PropertyRecord) : String × Option ValidationError :=
  let pre := "  \x7b" ++ "\"" ++ Property.Name ++ "\"" ++ ", "
      ++ "OptionValue::eType" ++ Property.type ++ ", "
      ++ (if Property.Global then "true" else "false") ++ ", "
  if !(Property.hasDefaultUnsignedValue || Property.hasDefaultEnumValue
        || Property.hasDefaultStringValue) then
    (pre, some ValidationError.MissingDefault)
  else if Property.hasDefaultUnsignedValue && Property.hasDefaultEnumValue then
    (pre, some ValidationError.ConflictingDefault)
  else
    (pre
      ++ (if Property.hasDefaultUnsignedValue then
            toString Property.DefaultUnsignedValue
          else if Property.hasDefaultEnumValue then
            Property.DefaultEnumValue
          else "0")
      ++ ", "
      ++ (if Property.hasDefaultStringValue then
            match Property.DefaultStringValue with
            | some D => "\"" ++ D ++ "\""
            | none => "\"\""
          else "nullptr")
      ++ ", "
      ++ (match Property.EnumValues with
          | some ev => ev
          | none => "\x7b\x7d")
      ++ ", "
      ++ (match Property.Description with
          | some D => "\"" ++ D ++ "\""
          | none => "\"\"")
      ++ "\x7d,\n", none)

/-- The space-to-underscore replacement of `std::replace` on the guard. -/
def replaceSpaceChar (c : Char) : Char := if c = ' ' then '_' else c

/-- The guard macro both group emitters compute:
`"LLDB_PROPERTIES_" + PropertyName` with every space replaced by `_`
(no case change). -/
def neededMacroFor (PropertyName : String) : String :=
  String.mk (("LLDB_PROPERTIES_" ++ PropertyName).data.map replaceSpaceChar)

/-- The row loop of `emityProperties`: emission stops at the first record
whose assert fires. -/
def emitRows : List PropertyRecord → String × Option ValidationError
  | [] => ("", none)
  | P :: Ps =>
    match emitProperty P with
    | (s, some err) => (s, some err)
    | (s, none) =>
      match emitRows Ps with
      | (s2, e2) => (s ++ s2, e2)

/-- `emityProperties` (name as in the source): one table-mode group block. -/
def emityProperties (PropertyName : String)
    (PropertyRecords : List PropertyRecord) : String × Option ValidationError :=
  let NeededMacro := neededMacroFor PropertyName
  let head := "// Property definitions for " ++ PropertyName ++ "\n"
      ++ ("#ifdef " ++ NeededMacro ++ "\n")
      ++ ("static constexpr PropertyDefinition g_" ++ PropertyName
          ++ "_properties[] = \x7b\n")
  match emitRows PropertyRecords with
  | (s, some err) => (head ++ s, some err)
  | (s, none) =>
      (head ++ s ++ "\x7d;\n" ++ ("#undef " ++ NeededMacro ++ "\n")
        ++ ("#endif // " ++ PropertyName ++ " Property\n\n"), none)

/-- The group-level `emitPropertyEnum` overload: one enum-mode group block.
No validation is performed in this mode. -/
def emitPropertyEnumGroup (PropertyName : String)
    (PropertyRecords : List PropertyRecord) : String :=
  let NeededMacro := neededMacroFor PropertyName
  (PropertyRecords.foldl (fun OS R => OS ++ emitPropertyEnum R)
      ("// Property enum cases for " ++ PropertyName ++ "\n"
        ++ ("#ifdef " ++ NeededMacro ++ "\n")))
    ++ ("#undef " ++ NeededMacro ++ "\n")
    ++ ("#endif // " ++ PropertyName ++ " Property\n\n")

/-- Modelled from the spec: `llvm::emitSourceFileHeader` lives in LLVM's
TableGen library, outside this repository's analysed source; per the spec it
writes a fixed boilerplate header identifying the artifact as
machine-generated, parameterised only by the description the backend passes. -/
def emitSourceFileHeader (Desc : String) : String :=
  "/* TableGen machine-generated file: " ++ Desc ++ " */\n\n"

/-- `EmitPropertyDefs` (table mode): header, then one block per group in map
order; an assertion failure aborts the run at that point. -/
def EmitPropertyDefs (Properties : List PropertyRecord) :
    String × Option ValidationError :=
  (getPropertyList Properties).foldl
    (fun acc g =>
      match acc with
      | (s, some err) => (s, some err)
      | (s, none) =>
        match emityProperties g.1 g.2 with
        | (s2, e2) => (s ++ s2, e2))
    (emitSourceFileHeader "Property definitions for LLDB.", none)

/-- `EmitPropertyEnumDefs` (enum mode): header, then one enum block per group
in map order; no validation happens in this mode. -/
def EmitPropertyEnumDefs (Properties : List PropertyRecord) : String :=
  (getPropertyList Properties).foldl
    (fun s g => s ++ emitPropertyEnumGroup g.1 g.2)
    (emitSourceFileHeader "Property definition enum for LLDB.")

/-- Example record: the spec's `verbose` Debugger property. -/
def cVerbose : PropertyRecord :=
  { recordName := "verbose", Name := "verbose", Definition := "Debugger"
    type := "Boolean", Global := false
    hasDefaultUnsignedValue := true, DefaultUnsignedValue := 0
    hasDefaultEnumValue := false, DefaultEnumValue := ""
    hasDefaultStringValue := false, DefaultStringValue := none
    EnumValues := none, Description := none }

/-- Example record: the spec's `timeout` Debugger property. -/
def cTimeout : PropertyRecord :=
  { recordName := "timeout", Name := "timeout", Definition := "Debugger"
    type := "UInt64", Global := true
    hasDefaultUnsignedValue := true, DefaultUnsignedValue := 30
    hasDefaultEnumValue := false, DefaultEnumValue := ""
    hasDefaultStringValue := false, DefaultStringValue := none
    EnumValues := none, Description := some "Seconds" }

/-- Example record: a property with no default of any kind. -/
def cBad : PropertyRecord :=
  { recordName := "x", Name := "x", Definition := "G"
    type := "Boolean", Global := false
    hasDefaultUnsignedValue := false, DefaultUnsignedValue := 0
    hasDefaultEnumValue := false, DefaultEnumValue := ""
    hasDefaultStringValue := false, DefaultStringValue := none
    EnumValues := none, Description := none }

/-- Example record: a string-defaulted property. -/
def cStr : PropertyRecord :=
  { recordName := "path", Name := "path", Definition := "Target"
    type := "String", Global := false
    hasDefaultUnsignedValue := false, DefaultUnsignedValue := 0
    hasDefaultEnumValue := false, DefaultEnumValue := ""
    hasDefaultStringValue := true, DefaultStringValue := some "abc"
    EnumValues := none, Description := none }

/-- Concatenation of the strings produced for each list element, in order. -/
def concatMap {α : Type} (f : α → String) : List α → String
  | [] => ""
  | a :: l => f a ++ concatMap f l

/-- The part of a table row written after the `Global` slot (empty when one
of the asserts fires first). -/
def emitPropertyTail (P : PropertyRecord) : String :=
  if !(P.hasDefaultUnsignedValue || P.hasDefaultEnumValue
        || P.hasDefaultStringValue) then ""
  else if P.hasDefaultUnsignedValue && P.hasDefaultEnumValue then ""
  else
    (if P.hasDefaultUnsignedValue then toString P.DefaultUnsignedValue
     else if P.hasDefaultEnumValue then P.DefaultEnumValue
     else "0")
    ++ ", "
    ++ (if P.hasDefaultStringValue then
          match P.DefaultStringValue with
          | some D => "\"" ++ D ++ "\""
          | none => "\"\""
        else "nullptr")
    ++ ", "
    ++ (match P.EnumValues with
        | some ev => ev
        | none => "\x7b\x7d")
    ++ ", "
    ++ (match P.Description with
        | some D => "\"" ++ D ++ "\""
        | none => "\"\"")
    ++ "\x7d,\n"

/-- A record with its three default-presence flags replaced. -/
def withDefaultFlags (P : PropertyRecord) (b1 b2 b3 : Bool) : PropertyRecord :=
  { P with hasDefaultUnsignedValue := b1, hasDefaultEnumValue := b2, hasDefaultStringValue := b3 }

theorem findGroup_nil (k : String) : findGroup k [] = [] := rfl

theorem findGroup_cons (k : String) (g : String × List PropertyRecord)
    (rest : List (String × List PropertyRecord)) :
    findGroup k (g :: rest) = if g.1 = k then g.2 else findGroup k rest := by
  by_cases h : g.1 = k
  · simp [findGroup, List.find?, h]
  · have hb : (g.1 == k) = false := beq_eq_false_iff_ne.mpr h
    simp [findGroup, List.find?, hb, h]

theorem keys_insertRecord (k : String) (P : PropertyRecord)
    (acc : List (String × List PropertyRecord)) :
    ∀ b ∈ insertRecord k P acc, b.1 = k ∨ b.1 ∈ acc.map Prod.fst := by
  induction acc with
  | nil =>
    intro b hb
    simp only [insertRecord, List.mem_singleton] at hb
    subst hb; exact Or.inl rfl
  | cons g rest ih =>
    intro b hb
    simp only [insertRecord] at hb
    by_cases h1 : k = g.1
    · rw [if_pos h1] at hb
      rcases List.mem_cons.mp hb with rfl | hb
      · right; simp
      · right
        simp only [List.map_cons, List.mem_cons]
        exact Or.inr (List.mem_map_of_mem Prod.fst hb)
    · rw [if_neg h1] at hb
      by_cases h2 : k < g.1
      · rw [if_pos h2] at hb
        rcases List.mem_cons.mp hb with rfl | hb
        · exact Or.inl rfl
        · right; exact List.mem_map_of_mem Prod.fst hb
      · rw [if_neg h2] at hb
        rcases List.mem_cons.mp hb with rfl | hb
        · right; simp
        · rcases ih b hb with h | h
          · exact Or.inl h
          · right
            simp only [List.map_cons, List.mem_cons]
            exact Or.inr h

theorem sorted_insertRecord {k : String} {P : PropertyRecord}
    {acc : List (String × List PropertyRecord)}
    (h : List.Pairwise (fun a b => a.1 < b.1) acc) :
    List.Pairwise (fun a b => a.1 < b.1) (insertRecord k P acc) := by
  induction acc with
  | nil => simp [insertRecord]
  | cons g rest ih =>
    obtain ⟨hg, hrest⟩ := List.pairwise_cons.mp h
    simp only [insertRecord]
    by_cases h1 : k = g.1
    · rw [if_pos h1]
      exact List.pairwise_cons.mpr ⟨hg, hrest⟩
    · rw [if_neg h1]
      by_cases h2 : k < g.1
      · rw [if_pos h2]
        refine List.pairwise_cons.mpr ⟨?_, List.pairwise_cons.mpr ⟨hg, hrest⟩⟩
        intro b hb
        rcases List.mem_cons.mp hb with rfl | hb
        · exact h2
        · exact lt_trans h2 (hg b hb)
      · rw [if_neg h2]
        refine List.pairwise_cons.mpr ⟨?_, ih hrest⟩
        have hgk : g.1 < k :=
          lt_of_le_of_ne (le_of_not_lt h2) (fun he => h1 he.symm)
        intro b hb
        rcases keys_insertRecord k P rest b hb with hk | hk
        · exact hk ▸ hgk
        · obtain ⟨c, hc, hbc⟩ := List.mem_map.mp hk
          exact hbc ▸ hg c hc

theorem findGroup_not_mem {j : String}
    {acc : List (String × List PropertyRecord)}
    (h : ∀ b ∈ acc, j ≠ b.1) : findGroup j acc = [] := by
  induction acc with
  | nil => rfl
  | cons g rest ih =>
    rw [findGroup_cons]
    rw [if_neg (fun he => h g (List.mem_cons_self g rest) he.symm)]
    exact ih (fun b hb => h b (List.mem_cons_of_mem g hb))

theorem findGroup_insertRecord {j k : String} {P : PropertyRecord}
    {acc : List (String × List PropertyRecord)}
    (h : List.Pairwise (fun a b => a.1 < b.1) acc) :
    findGroup j (insertRecord k P acc)
      = if j = k then findGroup j acc ++ [P] else findGroup j acc := by
  induction acc with
  | nil =>
    by_cases hj : j = k
    · subst hj
      simp [insertRecord, findGroup_cons, findGroup_nil]
    · have hk : ¬ (k = j) := fun he => hj he.symm
      simp [insertRecord, findGroup_cons, findGroup_nil, hj, hk]
  | cons g rest ih =>
    obtain ⟨hg, hrest⟩ := List.pairwise_cons.mp h
    simp only [insertRecord]
    by_cases h1 : k = g.1
    · rw [if_pos h1]
      by_cases hj : j = g.1
      · have hjk : j = k := hj.trans h1.symm
        rw [findGroup_cons, if_pos hj.symm, if_pos hjk, findGroup_cons,
          if_pos hj.symm]
      · have hjk : j ≠ k := fun he => hj (he.trans h1)
        rw [findGroup_cons, if_neg (fun he => hj he.symm), if_neg hjk,
          findGroup_cons, if_neg (fun he => hj he.symm)]
    · rw [if_neg h1]
      by_cases h2 : k < g.1
      · rw [if_pos h2]
        by_cases hj : j = k
        · subst hj
          rw [findGroup_cons, if_pos rfl, if_pos rfl]
          have hempty : findGroup j (g :: rest) = [] := by
            refine findGroup_not_mem ?_
            intro b hb
            rcases List.mem_cons.mp hb with rfl | hb
            · exact ne_of_lt h2
            · exact ne_of_lt (lt_trans h2 (hg b hb))
          rw [hempty, List.nil_append]
        · rw [findGroup_cons, if_neg (fun he => hj he.symm), if_neg hj]
      · rw [if_neg h2]
        rw [findGroup_cons]
        by_cases hj : g.1 = j
        · have hjk : j ≠ k := fun he => h1 ((he ▸ hj).symm)
          rw [if_pos hj, if_neg hjk, findGroup_cons, if_pos hj]
        · rw [if_neg hj, ih hrest]
          by_cases hjk : j = k
          · rw [if_pos hjk, if_pos hjk, findGroup_cons, if_neg hj]
          · rw [if_neg hjk, if_neg hjk, findGroup_cons, if_neg hj]

theorem sum_insertRecord (k : String) (P : PropertyRecord)
    (acc : List (String × List PropertyRecord)) :
    ((insertRecord k P acc).map (fun g => g.2.length)).sum
      = ((acc.map (fun g => g.2.length)).sum) + 1 := by
  induction acc with
  | nil => simp [insertRecord]
  | cons g rest ih =>
    simp only [insertRecord]
    by_cases h1 : k = g.1
    · rw [if_pos h1]
      simp only [List.map_cons, List.sum_cons, List.length_append,
        List.length_singleton]
      omega
    · rw [if_neg h1]
      by_cases h2 : k < g.1
      · rw [if_pos h2]
        simp only [List.map_cons, List.sum_cons, List.length_singleton]
        omega
      · rw [if_neg h2]
        simp only [List.map_cons, List.sum_cons, ih]
        omega

theorem sorted_getPropertyListAux (l : List PropertyRecord) :
    ∀ acc, List.Pairwise (fun a b => a.1 < b.1) acc →
      List.Pairwise (fun a b => a.1 < b.1)
        (l.foldl
          (fun result Property => insertRecord Property.Definition Property result)
          acc) := by
  induction l with
  | nil => intro acc h; exact h
  | cons P l ih =>
    intro acc h
    exact ih _ (sorted_insertRecord h)

theorem sorted_getPropertyList (l : List PropertyRecord) :
    List.Pairwise (fun a b => a.1 < b.1) (getPropertyList l) :=
  sorted_getPropertyListAux l [] List.Pairwise.nil

theorem findGroup_getPropertyListAux (l : List PropertyRecord) :
    ∀ acc, List.Pairwise (fun a b => a.1 < b.1) acc → ∀ j : String,
      findGroup j
          (l.foldl
            (fun result Property =>
              insertRecord Property.Definition Property result)
            acc)
        = findGroup j acc ++ l.filter (fun P => P.Definition == j) := by
  induction l with
  | nil =>
    intro acc _ j
    simp
  | cons P l ih =>
    intro acc h j
    rw [List.foldl_cons, ih _ (sorted_insertRecord h) j,
      findGroup_insertRecord h]
    by_cases hj : j = P.Definition
    · have hb : (P.Definition == j) = true := beq_iff_eq.mpr hj.symm
      rw [if_pos hj, List.filter_cons, if_pos hb, List.append_assoc,
        List.singleton_append]
    · have hb : (P.Definition == j) = false :=
        beq_eq_false_iff_ne.mpr (fun he => hj he.symm)
      rw [if_neg hj, List.filter_cons, if_neg (by simp [hb])]

theorem findGroup_getPropertyList (l : List PropertyRecord) (j : String) :
    findGroup j (getPropertyList l)
      = l.filter (fun P => P.Definition == j) := by
  have h := findGroup_getPropertyListAux l [] List.Pairwise.nil j
  rw [getPropertyList]
  rw [h, findGroup_nil, List.nil_append]

theorem sum_getPropertyListAux (l : List PropertyRecord) :
    ∀ acc,
      (((l.foldl
          (fun result Property =>
            insertRecord Property.Definition Property result)
          acc)).map (fun g => g.2.length)).sum
        = ((acc.map (fun g => g.2.length)).sum) + l.length := by
  induction l with
  | nil => intro acc; simp
  | cons P l ih =>
    intro acc
    rw [List.foldl_cons, ih _, sum_insertRecord]
    simp only [List.length_cons]
    omega

theorem sum_getPropertyList (l : List PropertyRecord) :
    (((getPropertyList l)).map (fun g => g.2.length)).sum = l.length := by
  have h := sum_getPropertyListAux l []
  rw [getPropertyList, h]
  simp

theorem findGroup_of_mem {groups : List (String × List PropertyRecord)}
    (h : List.Pairwise (fun a b => a.1 < b.1) groups)
    {g : String × List PropertyRecord} (hg : g ∈ groups) :
    findGroup g.1 groups = g.2 := by
  induction groups with
  | nil => cases hg
  | cons a rest ih =>
    obtain ⟨ha, hrest⟩ := List.pairwise_cons.mp h
    rcases List.mem_cons.mp hg with rfl | hg
    · rw [findGroup_cons, if_pos rfl]
    · rw [findGroup_cons, if_neg (ne_of_lt (ha g hg))]
      exact ih hrest hg

theorem mem_getPropertyList (l : List PropertyRecord)
    {g : String × List PropertyRecord} (hg : g ∈ getPropertyList l) :
    g.2 = l.filter (fun P => P.Definition == g.1) := by
  rw [← findGroup_getPropertyList l g.1]
  exact (findGroup_of_mem (sorted_getPropertyList l) hg).symm

theorem emitProperty_snd (P : PropertyRecord) :
    (emitProperty P).2 = validate P := by
  cases hU : P.hasDefaultUnsignedValue <;>
    cases hE : P.hasDefaultEnumValue <;>
    cases hS : P.hasDefaultStringValue <;>
    simp [emitProperty, validate, hU, hE, hS]

theorem emitRows_all_valid {Ps : List PropertyRecord}
    (h : ∀ P ∈ Ps, validate P = none) :
    emitRows Ps = (concatMap (fun P => (emitProperty P).1) Ps, none) := by
  induction Ps with
  | nil => rfl
  | cons P Ps ih =>
    have hP : (emitProperty P).2 = none := by
      rw [emitProperty_snd]
      exact h P (List.mem_cons_self P Ps)
    rcases hEP : emitProperty P with ⟨s, e⟩
    have he : e = none := by rw [hEP] at hP; exact hP
    subst he
    have hihyp : ∀ Q ∈ Ps, validate Q = none :=
      fun Q hQ => h Q (List.mem_cons_of_mem P hQ)
    simp only [emitRows, hEP, ih hihyp, concatMap]

theorem foldl_append_emitPropertyEnum (Ps : List PropertyRecord) :
    ∀ init : String,
      Ps.foldl (fun OS R => OS ++ emitPropertyEnum R) init
        = init ++ concatMap emitPropertyEnum Ps := by
  induction Ps with
  | nil =>
    intro init
    simp [concatMap, String.append_empty]
  | cons P Ps ih =>
    intro init
    rw [List.foldl_cons, ih, concatMap, String.append_assoc]

theorem emitPropertyEnumGroup_eq (PropertyName : String)
    (PropertyRecords : List PropertyRecord) :
    emitPropertyEnumGroup PropertyName PropertyRecords
      = ("// Property enum cases for " ++ PropertyName ++ "\n"
          ++ ("#ifdef " ++ neededMacroFor PropertyName ++ "\n"))
        ++ concatMap emitPropertyEnum PropertyRecords
        ++ ("#undef " ++ neededMacroFor PropertyName ++ "\n")
        ++ ("#endif // " ++ PropertyName ++ " Property\n\n") := by
  rw [emitPropertyEnumGroup, foldl_append_emitPropertyEnum]

theorem neededMacroFor_eq (g : String) :
    neededMacroFor g
      = "LLDB_PROPERTIES_" ++ String.mk (g.data.map replaceSpaceChar) := by
  rw [neededMacroFor, String.data_append, List.map_append]
  have h : ("LLDB_PROPERTIES_" : String).data.map replaceSpaceChar
      = ("LLDB_PROPERTIES_" : String).data := by decide
  rw [h]
  rfl

theorem emityProperties_all_valid (PropertyName : String)
    {PropertyRecords : List PropertyRecord}
    (h : ∀ P ∈ PropertyRecords, validate P = none) :
    emityProperties PropertyName PropertyRecords
      = ("// Property definitions for " ++ PropertyName ++ "\n"
          ++ ("#ifdef " ++ neededMacroFor PropertyName ++ "\n")
          ++ ("static constexpr PropertyDefinition g_" ++ PropertyName
              ++ "_properties[] = \x7b\n")
          ++ concatMap (fun P => (emitProperty P).1) PropertyRecords
          ++ "\x7d;\n" ++ ("#undef " ++ neededMacroFor PropertyName ++ "\n")
          ++ ("#endif // " ++ PropertyName ++ " Property\n\n"), none) := by
  simp only [emityProperties, emitRows_all_valid h]

theorem EmitDefs_foldl_all_valid
    (groups : List (String × List PropertyRecord))
    (h : ∀ g ∈ groups, (emityProperties g.1 g.2).2 = none) :
    ∀ init : String,
      groups.foldl
        (fun acc g =>
          match acc with
          | (s, some err) => (s, some err)
          | (s, none) =>
            match emityProperties g.1 g.2 with
            | (s2, e2) => (s ++ s2, e2))
        (init, none)
      = (init ++ concatMap (fun g => (emityProperties g.1 g.2).1) groups,
          none) := by
  induction groups with
  | nil =>
    intro init
    simp [concatMap, String.append_empty]
  | cons g gs ih =>
    intro init
    rcases hE : emityProperties g.1 g.2 with ⟨s2, e2⟩
    have he : e2 = none := by
      have := h g (List.mem_cons_self g gs)
      rw [hE] at this
      exact this
    subst he
    rw [List.foldl_cons]
    have hstep :
        (match (init, (none : Option ValidationError)) with
          | (s, some err) => (s, some err)
          | (s, none) =>
            match emityProperties g.1 g.2 with
            | (s2, e2) => (s ++ s2, e2))
        = (init ++ s2, (none : Option ValidationError)) := by
      simp [hE]
    rw [hstep, ih (fun b hb => h b (List.mem_cons_of_mem g hb)) (init ++ s2)]
    rw [concatMap, hE, String.append_assoc]

theorem EmitPropertyDefs_all_valid {l : List PropertyRecord}
    (h : ∀ P ∈ l, validate P = none) :
    EmitPropertyDefs l
      = (emitSourceFileHeader "Property definitions for LLDB."
          ++ concatMap (fun g => (emityProperties g.1 g.2).1)
              (getPropertyList l), none) := by
  rw [EmitPropertyDefs]
  refine EmitDefs_foldl_all_valid (getPropertyList l) ?_ _
  intro g hg
  rcases hE : emityProperties g.1 g.2 with ⟨s, e⟩
  rcases e with _ | err
  · rfl
  · exfalso
    have hv : ∀ P ∈ g.2, validate P = none := by
      intro P hP
      rw [mem_getPropertyList l hg] at hP
      exact h P (List.mem_of_mem_filter hP)
    rw [emityProperties_all_valid g.1 hv] at hE
    exact Option.noConfusion (congrArg Prod.snd hE)

theorem EmitPropertyDefs_singleton_fails {P : PropertyRecord}
    {err : ValidationError} (h : validate P = some err) :
    (EmitPropertyDefs [P]).2 = some err := by
  have hP : (emitProperty P).2 = some err := by rw [emitProperty_snd, h]
  rcases hEP : emitProperty P with ⟨s, e⟩
  have he : e = some err := by rw [hEP] at hP; exact hP
  subst he
  simp [EmitPropertyDefs, getPropertyList, insertRecord, emityProperties,
    emitRows, hEP]

theorem emityProperties_fst (g : String) (rs : List PropertyRecord) :
    (emityProperties g rs).1
      = "// Property definitions for " ++ g ++ "\n"
        ++ ("#ifdef " ++ neededMacroFor g ++ "\n")
        ++ (("static constexpr PropertyDefinition g_" ++ g
              ++ "_properties[] = \x7b\n")
          ++ ((emitRows rs).1
            ++ match (emitRows rs).2 with
               | some _ => ""
               | none => "\x7d;\n" ++ ("#undef " ++ neededMacroFor g ++ "\n")
                   ++ ("#endif // " ++ g ++ " Property\n\n"))) := by
  rcases hR : emitRows rs with ⟨s, e⟩
  cases e <;>
    simp [emityProperties, hR, String.append_assoc, String.append_empty]

theorem emitProperty_fst_eq (P : PropertyRecord) :
    (emitProperty P).1
      = "  \x7b" ++ "\"" ++ P.Name ++ "\"" ++ ", " ++ "OptionValue::eType"
        ++ P.type ++ ", " ++ (if P.Global then "true" else "false") ++ ", "
        ++ emitPropertyTail P := by
  have hmerge : ∀ M : String, (", " : String) ++ ("0, " ++ M) = ", 0, " ++ M := by
    intro M
    rw [← String.append_assoc]
    rfl
  cases hU : P.hasDefaultUnsignedValue <;>
    cases hE : P.hasDefaultEnumValue <;>
    cases hS : P.hasDefaultStringValue <;>
    simp [emitProperty, emitPropertyTail, hU, hE, hS, String.append_assoc,
      String.append_empty]
  rw [hmerge]

/-- C1 (counterexample): the guard macro for the group name
"Target Experimental" is `LLDB_PROPERTIES_Target_Experimental` — spaces are
replaced by underscores but the name is NOT uppercased — so the claimed
guard `LLDB_PROPERTIES_TARGET_EXPERIMENTAL` never appears: the guard lines
of both emission modes carry the mixed-case macro. -/
theorem c1_guard_counterexample :
    neededMacroFor "Target Experimental"
      = "LLDB_PROPERTIES_Target_Experimental" ∧
    neededMacroFor "Target Experimental"
      ≠ "LLDB_PROPERTIES_TARGET_EXPERIMENTAL" ∧
    emitPropertyEnumGroup "Target Experimental" []
      = "// Property enum cases for Target Experimental\n#ifdef LLDB_PROPERTIES_Target_Experimental\n#undef LLDB_PROPERTIES_Target_Experimental\n#endif // Target Experimental Property\n\n" ∧
    (emityProperties "Target Experimental" []).1
      = "// Property definitions for Target Experimental\n#ifdef LLDB_PROPERTIES_Target_Experimental\nstatic constexpr PropertyDefinition g_Target Experimental_properties[] = \x7b\n\x7d;\n#undef LLDB_PROPERTIES_Target_Experimental\n#endif // Target Experimental Property\n\n" :=
  ⟨by decide, by decide, by decide, by decide⟩

/-- C1 (amended): in both modes the guard macro equals the fixed prefix
`LLDB_PROPERTIES_` followed by the group name with every space replaced by
an underscore, with NO case change; the group name "Target Experimental"
yields the guard macro `LLDB_PROPERTIES_Target_Experimental`. -/
theorem c1_guard_amended : ∀ (g : String) (rs : List PropertyRecord),
    neededMacroFor g
      = "LLDB_PROPERTIES_" ++ String.mk (g.data.map replaceSpaceChar) ∧
    (∃ r1, (emityProperties g rs).1
        = "// Property definitions for " ++ g ++ "\n"
          ++ ("#ifdef " ++ neededMacroFor g ++ "\n") ++ r1) ∧
    (∃ r2, emitPropertyEnumGroup g rs
        = "// Property enum cases for " ++ g ++ "\n"
          ++ ("#ifdef " ++ neededMacroFor g ++ "\n") ++ r2) ∧
    neededMacroFor "Target Experimental"
      = "LLDB_PROPERTIES_Target_Experimental" := by
  intro g rs
  refine ⟨neededMacroFor_eq g, ⟨_, emityProperties_fst g rs⟩,
    ⟨concatMap emitPropertyEnum rs
      ++ (("#undef " ++ neededMacroFor g ++ "\n")
        ++ ("#endif // " ++ g ++ " Property\n\n")), ?_⟩,
    by decide⟩
  rw [emitPropertyEnumGroup_eq, String.append_assoc, String.append_assoc]

/-- C7 (counterexample): for the two-record Debugger example the enum-mode
block is guarded by `LLDB_PROPERTIES_Debugger`, not by the claimed
`LLDB_PROPERTIES_DEBUGGER` (the group name is not uppercased). -/
theorem c7_enum_counterexample :
    emitPropertyEnumGroup "Debugger" [cVerbose, cTimeout]
      = "// Property enum cases for Debugger\n#ifdef LLDB_PROPERTIES_Debugger\nePropertyverbose,\nePropertytimeout,\n#undef LLDB_PROPERTIES_Debugger\n#endif // Debugger Property\n\n" ∧
    neededMacroFor "Debugger" ≠ "LLDB_PROPERTIES_DEBUGGER" :=
  ⟨by decide, by decide⟩

/-- C7 (amended): in enum mode each group's guarded block contains exactly
one line per record, the fixed tag `eProperty` followed by the record's name
and a comma, in the group's preserved record order; the two-record Debugger
example emits exactly `ePropertyverbose,` then `ePropertytimeout,` inside
one block guarded by `LLDB_PROPERTIES_Debugger` (case preserved). -/
theorem c7_enum_amended : ∀ (g : String) (rs : List PropertyRecord),
    emitPropertyEnumGroup g rs
      = ("// Property enum cases for " ++ g ++ "\n"
          ++ ("#ifdef " ++ neededMacroFor g ++ "\n"))
        ++ concatMap (fun R => "eProperty" ++ R.recordName ++ ",\n") rs
        ++ ("#undef " ++ neededMacroFor g ++ "\n")
        ++ ("#endif // " ++ g ++ " Property\n\n") ∧
    emitPropertyEnumGroup "Debugger" [cVerbose, cTimeout]
      = "// Property enum cases for Debugger\n#ifdef LLDB_PROPERTIES_Debugger\nePropertyverbose,\nePropertytimeout,\n#undef LLDB_PROPERTIES_Debugger\n#endif // Debugger Property\n\n" := by
  intro g rs
  exact ⟨emitPropertyEnumGroup_eq g rs, by decide⟩

/-- C8: for any fixed input record list, the whole pipeline is a function of
that snapshot — two runs of either mode are equal — and the group order both
modes share is the strictly sorted order of the group names. -/
theorem c8_determinism : ∀ l : List PropertyRecord,
    EmitPropertyDefs l = EmitPropertyDefs l ∧
    EmitPropertyEnumDefs l = EmitPropertyEnumDefs l ∧
    List.Pairwise (fun a b => a.1 < b.1) (getPropertyList l) :=
  fun l => ⟨rfl, rfl, sorted_getPropertyList l⟩

/-- C9: an empty record set yields an empty grouping, and in both modes the
output is exactly the machine-generated header with no group blocks and no
error. -/
theorem c9_empty_input :
    getPropertyList [] = [] ∧
    EmitPropertyDefs []
      = (emitSourceFileHeader "Property definitions for LLDB.", none) ∧
    EmitPropertyEnumDefs []
      = emitSourceFileHeader "Property definition enum for LLDB." :=
  ⟨rfl, rfl, rfl⟩

/-- C10: in table mode every group block's array declaration uses the group
name verbatim — `static constexpr PropertyDefinition g_<group>_properties[] = `
followed by an opening brace — with no uppercasing or space replacement, so
the group name "Target Experimental" appears unmodified, space included,
inside the emitted identifier. -/
theorem c10_array_decl : ∀ (g : String) (rs : List PropertyRecord),
    (∃ r, (emityProperties g rs).1
        = "// Property definitions for " ++ g ++ "\n"
          ++ ("#ifdef " ++ neededMacroFor g ++ "\n")
          ++ ("static constexpr PropertyDefinition g_" ++ g
              ++ "_properties[] = \x7b\n") ++ r) ∧
    (emityProperties "Target Experimental" []).1
      = "// Property definitions for Target Experimental\n#ifdef LLDB_PROPERTIES_Target_Experimental\nstatic constexpr PropertyDefinition g_Target Experimental_properties[] = \x7b\n\x7d;\n#undef LLDB_PROPERTIES_Target_Experimental\n#endif // Target Experimental Property\n\n" := by
  intro g rs
  refine ⟨⟨(emitRows rs).1
      ++ match (emitRows rs).2 with
         | some _ => ""
         | none => "\x7d;\n" ++ ("#undef " ++ neededMacroFor g ++ "\n")
             ++ ("#endif // " ++ g ++ " Property\n\n"), ?_⟩, by decide⟩
  rw [emityProperties_fst g rs]
  exact (String.append_assoc _ _ _).symm

/-- C2: for every record, validation fails with `MissingDefault` exactly when
none of the three default kinds is present, fails with `ConflictingDefault`
exactly when both the unsigned and the enum default are present, succeeds
otherwise, and a failing record makes the table-mode generation run abort
with that error. -/
theorem c2_validate : ∀ P : PropertyRecord,
    (validate P = some ValidationError.MissingDefault
      ↔ (P.hasDefaultUnsignedValue = false ∧ P.hasDefaultEnumValue = false
          ∧ P.hasDefaultStringValue = false)) ∧
    (validate P = some ValidationError.ConflictingDefault
      ↔ (P.hasDefaultUnsignedValue = true ∧ P.hasDefaultEnumValue = true)) ∧
    (validate P = none
      ↔ ((P.hasDefaultUnsignedValue = true ∨ P.hasDefaultEnumValue = true
            ∨ P.hasDefaultStringValue = true)
          ∧ ¬(P.hasDefaultUnsignedValue = true
              ∧ P.hasDefaultEnumValue = true))) ∧
    (∀ err, validate P = some err → (EmitPropertyDefs [P]).2 = some err) := by
  intro P
  refine ⟨?_, ?_, ?_, fun err h => EmitPropertyDefs_singleton_fails h⟩ <;>
    cases hU : P.hasDefaultUnsignedValue <;>
    cases hE : P.hasDefaultEnumValue <;>
    cases hS : P.hasDefaultStringValue <;>
    simp [validate, hU, hE, hS]

/-- C2 (witness): the record `cBad`, which has no default of any kind, is
rejected with `MissingDefault` and aborts the table-mode run. -/
theorem c2_validate_witness :
    validate cBad = some ValidationError.MissingDefault ∧
    (EmitPropertyDefs [cBad]).2 = some ValidationError.MissingDefault := by
  have h := c2_validate cBad
  have hv : validate cBad = some ValidationError.MissingDefault :=
    h.1.mpr ⟨rfl, rfl, rfl⟩
  exact ⟨hv, h.2.2.2 ValidationError.MissingDefault hv⟩

/-- C3 (counterexample): for the defaultless record `cBad`, the table-mode
run aborts only AFTER the partial row text
`  \x7b"x", OptionValue::eTypeBoolean, false, ` for the failing record has
been written, and the enum-mode run performs no validation at all — it
completes and emits the record's enum line — so the claim that both modes
abort before emitting any partial row text for the record is false. -/
theorem c3_validation_counterexample :
    validate cBad = some ValidationError.MissingDefault ∧
    EmitPropertyDefs [cBad]
      = (emitSourceFileHeader "Property definitions for LLDB."
          ++ "// Property definitions for G\n#ifdef LLDB_PROPERTIES_G\nstatic constexpr PropertyDefinition g_G_properties[] = \x7b\n  \x7b\"x\", OptionValue::eTypeBoolean, false, ",
          some ValidationError.MissingDefault) ∧
    EmitPropertyEnumDefs [cBad]
      = emitSourceFileHeader "Property definition enum for LLDB."
        ++ "// Property enum cases for G\n#ifdef LLDB_PROPERTIES_G\nePropertyx,\n#undef LLDB_PROPERTIES_G\n#endif // G Property\n\n" :=
  ⟨by decide, by decide, by decide⟩

/-- C3 (amended): only table mode validates, and it does so after the
failing record's name, type and global slots have already been written, so
the aborted output ends with that partial row text; enum mode emits the same
output whatever the record's default flags are; and the abort message is the
assert's fixed string, which does not name the record or its group. -/
theorem c3_validation_amended : ∀ (P : PropertyRecord) (err : ValidationError),
    validate P = some err →
    (emitProperty P
        = ("  \x7b" ++ "\"" ++ P.Name ++ "\"" ++ ", " ++ "OptionValue::eType"
            ++ P.type ++ ", " ++ (if P.Global then "true" else "false")
            ++ ", ", some err)) ∧
    (∀ b1 b2 b3 : Bool,
      EmitPropertyEnumDefs [withDefaultFlags P b1 b2 b3]
        = EmitPropertyEnumDefs [P]) ∧
    assertMessage ValidationError.MissingDefault
      = "Property must have a default value" ∧
    assertMessage ValidationError.ConflictingDefault
      = "Property cannot have both a unsigned and enum default value." := by
  intro P err h
  refine ⟨?_, ?_, rfl, rfl⟩
  · cases hU : P.hasDefaultUnsignedValue <;>
      cases hE : P.hasDefaultEnumValue <;>
      cases hS : P.hasDefaultStringValue <;>
      simp [validate, hU, hE, hS] at h <;>
      simp [emitProperty, hU, hE, hS, ← h]
  · intro b1 b2 b3
    simp [EmitPropertyEnumDefs, getPropertyList, insertRecord,
      emitPropertyEnumGroup, emitPropertyEnum, withDefaultFlags]

/-- C3 (witness): the amended claim instantiated at `cBad`. -/
theorem c3_validation_witness :
    validate cBad = some ValidationError.MissingDefault ∧
    emitProperty cBad
      = ("  \x7b\"x\", OptionValue::eTypeBoolean, false, ",
          some ValidationError.MissingDefault) := by
  have h := c3_validation_amended cBad ValidationError.MissingDefault rfl
  exact ⟨rfl, h.1.trans (by decide)⟩

/-- C4: grouping puts each input record in exactly one group — the one keyed
by its `Definition` — iterates groups in strictly increasing (lexicographic)
key order, preserves the relative input order inside each group (each bucket
is exactly the input filtered to that key), and the total bucket size equals
the input length; when every record passes validation this total equals the
number of records that passed validation, and each bucket then emits exactly
one row per record. -/
theorem c4_grouping : ∀ l : List PropertyRecord,
    (∀ P ∈ l, ∀ k : String,
      (P ∈ findGroup k (getPropertyList l) ↔ k = P.Definition)) ∧
    List.Pairwise (fun a b => a.1 < b.1) (getPropertyList l) ∧
    (∀ k : String, findGroup k (getPropertyList l)
        = l.filter (fun P => P.Definition == k)) ∧
    ((getPropertyList l).map (fun g => g.2.length)).sum = l.length ∧
    ((∀ P ∈ l, validate P = none) →
      (((getPropertyList l).map (fun g => g.2.length)).sum
          = (l.filter (fun P => decide (validate P = none))).length ∧
        ∀ g ∈ getPropertyList l,
          emitRows g.2
            = (concatMap (fun P => (emitProperty P).1) g.2, none))) := by
  intro l
  refine ⟨?_, sorted_getPropertyList l, findGroup_getPropertyList l,
    sum_getPropertyList l, ?_⟩
  · intro P hP k
    rw [findGroup_getPropertyList l k]
    constructor
    · intro hmem
      have := List.of_mem_filter hmem
      exact (beq_iff_eq.mp this).symm
    · intro hk
      exact List.mem_filter.mpr ⟨hP, beq_iff_eq.mpr hk.symm⟩
  · intro h
    constructor
    · rw [sum_getPropertyList l]
      have hf : l.filter (fun P => decide (validate P = none)) = l := by
        rw [List.filter_eq_self]
        intro P hP
        simp [h P hP]
      rw [hf]
    · intro g hg
      refine emitRows_all_valid ?_
      intro P hP
      rw [mem_getPropertyList l hg] at hP
      exact h P (List.mem_of_mem_filter hP)

/-- C4 (witness): the grouping facts instantiated on the two-record Debugger
input, whose records all pass validation. -/
theorem c4_grouping_witness :
    (((getPropertyList [cVerbose, cTimeout]).map (fun g => g.2.length)).sum
        = ([cVerbose, cTimeout].filter
            (fun P => decide (validate P = none))).length) ∧
    cVerbose ∈ findGroup "Debugger" (getPropertyList [cVerbose, cTimeout]) := by
  have h := c4_grouping [cVerbose, cTimeout]
  refine ⟨(h.2.2.2.2 (by decide)).1, ?_⟩
  exact (h.1 cVerbose (by decide) "Debugger").mpr rfl

/-- C5: in a table row the default-value slot is the decimal literal of
`DefaultUnsignedValue` when the unsigned default is present, the raw token of
`DefaultEnumValue` when only the enum default is present, and the literal `0`
when neither is; the default-string slot is the quoted raw text of
`DefaultStringValue` when the string default is present and the token
`nullptr` when it is not. -/
theorem c5_default_slots : ∀ (P : PropertyRecord) (D : String),
    (P.hasDefaultUnsignedValue = true → P.hasDefaultEnumValue = false →
      (emitProperty P).1
        = "  \x7b" ++ "\"" ++ P.Name ++ "\"" ++ ", " ++ "OptionValue::eType"
          ++ P.type ++ ", " ++ (if P.Global then "true" else "false") ++ ", "
          ++ toString P.DefaultUnsignedValue ++ ", "
          ++ (if P.hasDefaultStringValue then
                match P.DefaultStringValue with
                | some D0 => "\"" ++ D0 ++ "\""
                | none => "\"\""
              else "nullptr")
          ++ ", "
          ++ (match P.EnumValues with
              | some ev => ev
              | none => "\x7b\x7d")
          ++ ", "
          ++ (match P.Description with
              | some D0 => "\"" ++ D0 ++ "\""
              | none => "\"\"")
          ++ "\x7d,\n") ∧
    (P.hasDefaultUnsignedValue = false → P.hasDefaultEnumValue = true →
      (emitProperty P).1
        = "  \x7b" ++ "\"" ++ P.Name ++ "\"" ++ ", " ++ "OptionValue::eType"
          ++ P.type ++ ", " ++ (if P.Global then "true" else "false") ++ ", "
          ++ P.DefaultEnumValue ++ ", "
          ++ (if P.hasDefaultStringValue then
                match P.DefaultStringValue with
                | some D0 => "\"" ++ D0 ++ "\""
                | none => "\"\""
              else "nullptr")
          ++ ", "
          ++ (match P.EnumValues with
              | some ev => ev
              | none => "\x7b\x7d")
          ++ ", "
          ++ (match P.Description with
              | some D0 => "\"" ++ D0 ++ "\""
              | none => "\"\"")
          ++ "\x7d,\n") ∧
    (P.hasDefaultUnsignedValue = false → P.hasDefaultEnumValue = false →
      P.hasDefaultStringValue = true →
      (emitProperty P).1
        = "  \x7b" ++ "\"" ++ P.Name ++ "\"" ++ ", " ++ "OptionValue::eType"
          ++ P.type ++ ", " ++ (if P.Global then "true" else "false") ++ ", "
          ++ "0" ++ ", "
          ++ (match P.DefaultStringValue with
              | some D0 => "\"" ++ D0 ++ "\""
              | none => "\"\"")
          ++ ", "
          ++ (match P.EnumValues with
              | some ev => ev
              | none => "\x7b\x7d")
          ++ ", "
          ++ (match P.Description with
              | some D0 => "\"" ++ D0 ++ "\""
              | none => "\"\"")
          ++ "\x7d,\n") ∧
    (P.hasDefaultStringValue = true → P.DefaultStringValue = some D →
      validate P = none →
      (emitProperty P).1
        = "  \x7b" ++ "\"" ++ P.Name ++ "\"" ++ ", " ++ "OptionValue::eType"
          ++ P.type ++ ", " ++ (if P.Global then "true" else "false") ++ ", "
          ++ (if P.hasDefaultUnsignedValue then
                toString P.DefaultUnsignedValue
              else if P.hasDefaultEnumValue then P.DefaultEnumValue
              else "0")
          ++ ", " ++ ("\"" ++ D ++ "\"") ++ ", "
          ++ (match P.EnumValues with
              | some ev => ev
              | none => "\x7b\x7d")
          ++ ", "
          ++ (match P.Description with
              | some D0 => "\"" ++ D0 ++ "\""
              | none => "\"\"")
          ++ "\x7d,\n") ∧
    (P.hasDefaultStringValue = false → validate P = none →
      (emitProperty P).1
        = "  \x7b" ++ "\"" ++ P.Name ++ "\"" ++ ", " ++ "OptionValue::eType"
          ++ P.type ++ ", " ++ (if P.Global then "true" else "false") ++ ", "
          ++ (if P.hasDefaultUnsignedValue then
                toString P.DefaultUnsignedValue
              else if P.hasDefaultEnumValue then P.DefaultEnumValue
              else "0")
          ++ ", " ++ "nullptr" ++ ", "
          ++ (match P.EnumValues with
              | some ev => ev
              | none => "\x7b\x7d")
          ++ ", "
          ++ (match P.Description with
              | some D0 => "\"" ++ D0 ++ "\""
              | none => "\"\"")
          ++ "\x7d,\n") := by
  intro P D
  refine ⟨?_, ?_, ?_, ?_, ?_⟩
  · intro hU hE
    simp [emitProperty, hU, hE, String.append_assoc]
  · intro hU hE
    cases hS : P.hasDefaultStringValue <;>
      simp [emitProperty, hU, hE, hS, String.append_assoc]
  · intro hU hE hS
    simp [emitProperty, hU, hE, hS, String.append_assoc]
  · intro hS hD hval
    cases hU : P.hasDefaultUnsignedValue <;>
      cases hE : P.hasDefaultEnumValue <;>
      simp [validate, hU, hE, hS] at hval <;>
      simp [emitProperty, hU, hE, hS, hD, String.append_assoc]
  · intro hS hval
    cases hU : P.hasDefaultUnsignedValue <;>
      cases hE : P.hasDefaultEnumValue <;>
      simp [validate, hU, hE, hS] at hval <;>
      simp [emitProperty, hU, hE, hS, String.append_assoc]

/-- C5 (witness): the slot rules instantiated at the unsigned-defaulted
record `cVerbose` and at the string-defaulted record `cStr`. -/
theorem c5_default_slots_witness :
    (emitProperty cVerbose).1
      = "  \x7b\"verbose\", OptionValue::eTypeBoolean, false, 0, nullptr, \x7b\x7d, \"\"\x7d,\n" ∧
    (emitProperty cStr).1
      = "  \x7b\"path\", OptionValue::eTypeString, false, 0, \"abc\", \x7b\x7d, \"\"\x7d,\n" := by
  have h1 := (c5_default_slots cVerbose "").1 rfl rfl
  have h2 := (c5_default_slots cStr "abc").2.2.2.1 rfl rfl (by decide)
  exact ⟨h1.trans (by decide), h2.trans (by decide)⟩

/-- C6: the `isGlobal` slot of a table row is the literal `true` when the
record's global flag is set and the literal `false` when it is not (the rest
of the row is unchanged either way). -/
theorem c6_global_slot : ∀ P : PropertyRecord,
    (P.Global = true →
      (emitProperty P).1
        = "  \x7b" ++ "\"" ++ P.Name ++ "\"" ++ ", " ++ "OptionValue::eType"
          ++ P.type ++ ", " ++ "true" ++ ", " ++ emitPropertyTail P) ∧
    (P.Global = false →
      (emitProperty P).1
        = "  \x7b" ++ "\"" ++ P.Name ++ "\"" ++ ", " ++ "OptionValue::eType"
          ++ P.type ++ ", " ++ "false" ++ ", " ++ emitPropertyTail P) := by
  intro P
  constructor
  · intro hG
    rw [emitProperty_fst_eq P, hG]
    simp
  · intro hG
    rw [emitProperty_fst_eq P, hG]
    simp

/-- C6 (witness): the global slot instantiated at the non-global record
`cVerbose` and the global record `cTimeout`. -/
theorem c6_global_slot_witness :
    (emitProperty cVerbose).1
      = "  \x7b\"verbose\", OptionValue::eTypeBoolean, false, "
        ++ emitPropertyTail cVerbose ∧
    (emitProperty cTimeout).1
      = "  \x7b\"timeout\", OptionValue::eTypeUInt64, true, "
        ++ emitPropertyTail cTimeout := by
  have h1 := (c6_global_slot cVerbose).2 rfl
  have h2 := (c6_global_slot cTimeout).1 rfl
  constructor
  · rw [h1]
    decide
  · rw [h2]
    decide

end LLDBPropertyDefEmitter
